import Mathlib

/-!
Verification of the adaptive-opponent core of the odds-or-evens game
(`ai_predictor.py`, plus the robot-number validation in
`game_engine.py`, lines 160-169).

The embedding mirrors the Python source:

* Python dicts are insertion-ordered association lists; `dGet` is
  `d[k]` / `d.get(k)` (first matching key), `dSet` is `d[k] = v`
  (update in place, append when new), and `maxByVal` is
  `max(d, key=d.get)` (the first key attaining the maximal value,
  since Python's `max` only replaces on strictly greater).
* `player_stats['finger_counts']` starts with the integer keys
  `1..5` (`__init__`) but is incremented and backfilled at the string
  keys `'1'..'5'` (`_update_statistics`, `load_data`), so its key type
  `PKey` distinguishes integer keys from string keys, and the value a
  prediction can carry (`FingerVal`) distinguishes an integer finger
  count from a string one.
* floats are modelled as rationals; machine rounding is not at issue
  in any claim (all the arithmetic involved is short and exact).
* the River online models: a fresh `LinearRegression` carries an empty
  weight vector and zero intercept and a fresh `LogisticRegression`
  likewise; `LinReg.predictOne` is the dot product of the weights with
  the feature vector plus the intercept, as in River.  The learning
  step (`learn_one`) and the `StandardScaler` update do not affect any
  claim, so `updateModel` and `predictPlayerBehavior` are parametrised
  over them (theorems quantify over every possible learner/scaler).
-/

namespace OddsEvens

/-- Python dict lookup `d.get(k)`: value at the first matching key. -/
def dGet {κ α : Type} [DecidableEq κ] : List (κ × α) → κ → Option α
  | [], _ => none
  | kv :: rest, k => if kv.1 = k then some kv.2 else dGet rest k

/-- Python dict assignment `d[k] = v`: replaces the value at the first
matching key in place, appends `(k, v)` at the end when `k` is absent. -/
def dSet {κ α : Type} [DecidableEq κ] : List (κ × α) → κ → α → List (κ × α)
  | [], k, v => [(k, v)]
  | kv :: rest, k, v => if kv.1 = k then (k, v) :: rest else kv :: dSet rest k v

/-- The increment idiom of `_update_statistics`:
`if k not in d: d[k] = 0` followed by `d[k] += 1`. -/
def dIncr {κ : Type} [DecidableEq κ] (l : List (κ × Nat)) (k : κ) : List (κ × Nat) :=
  dSet l k ((dGet l k).getD 0 + 1)

/-- Python `max(d, key=d.get)`: the first entry (in insertion order)
whose value is maximal; `max` replaces only on strictly greater. -/
def maxByVal {κ : Type} (l : List (κ × Nat)) : Option (κ × Nat) :=
  l.foldl (fun acc kv =>
    match acc with
    | none => some kv
    | some best => if best.2 < kv.2 then some kv else some best) none

/-- A key of `player_stats['finger_counts']`: the dict holds integer
keys `1..5` from `__init__`/`reset_data` and string keys `'1'..'5'`
from `_update_statistics` and `load_data`. -/
inductive PKey where
  | ikey (n : Int)
  | skey (s : String)
deriving DecidableEq, Repr

/-- A predicted finger-count value: `_simple_prediction` returns a key
of `finger_counts`, which is an `int` or a `str`; the online path
always produces an `int`. -/
inductive FingerVal where
  | intv (n : Int)
  | strv (s : String)
deriving DecidableEq, Repr

/-- One `game_data` record as consumed by `update_model` /
`_update_statistics`; fields are optional because the Python code reads
them with `game_data.get(key, default)`. -/
structure GameData where
  player_fingers : Option Int
  player_choice : Option String
  player_won_round : Option Bool
  game_finished : Option Bool
  current_round : Option Nat
deriving DecidableEq, Repr

/-- `self.player_stats` (the `patterns` sub-dict is never read or
written by any code path under study and is carried as an opaque
string-keyed map). -/
structure PlayerStats where
  total_games : Nat
  total_rounds : Nat
  finger_counts : List (PKey × Nat)
  choice_history : List (String × Nat)
  win_rate : ℚ
  patterns : List (String × Nat)
deriving DecidableEq, Repr

/-- The `player_stats` literal of `__init__` and `reset_data`:
integer keys `1..5`, each zero. -/
def freshStats : PlayerStats :=
  { total_games := 0
    total_rounds := 0
    finger_counts :=
      [(PKey.ikey 1, 0), (PKey.ikey 2, 0), (PKey.ikey 3, 0),
       (PKey.ikey 4, 0), (PKey.ikey 5, 0)]
    choice_history := [("odds", 0), ("evens", 0)]
    win_rate := 0
    patterns := [] }

/-- `AIPredictor._update_statistics(game_data)`.  The first argument is
`self.game_history` at call time (read when recomputing the win rate).
Note: the finger-count increment uses the string key `str(fingers)`;
the choice increment `choice_history[choice] += 1` presupposes the key
(present in every reachable state, since `__init__` seeds both keys and
the guard restricts `choice` to them). -/
def updateStatistics (game_history : List GameData) (s : PlayerStats)
    (gd : GameData) : PlayerStats :=
  let total_rounds : Nat := s.total_rounds + 1
  let fingers : Int := gd.player_fingers.getD 3
  let finger_counts : List (PKey × Nat) :=
    if 1 ≤ fingers ∧ fingers ≤ 5 then
      dIncr s.finger_counts (PKey.skey (toString fingers))
    else s.finger_counts
  let choice : String := gd.player_choice.getD "odds"
  let choice_history : List (String × Nat) :=
    if choice = "odds" ∨ choice = "evens" then
      dIncr s.choice_history choice
    else s.choice_history
  let total_games : Nat :=
    if gd.game_finished.getD false then s.total_games + 1 else s.total_games
  let win_rate : ℚ :=
    if 0 < total_rounds then
      let history_wins : Nat :=
        (game_history.filter (fun g => g.player_won_round.getD false)).length
      let current_win : Nat := if gd.player_won_round.getD false then 1 else 0
      ((history_wins + current_win : Nat) : ℚ) / ((total_rounds : Nat) : ℚ)
    else s.win_rate
  { total_games := total_games
    total_rounds := total_rounds
    finger_counts := finger_counts
    choice_history := choice_history
    win_rate := win_rate
    patterns := s.patterns }

/-- A River `LinearRegression` (or the linear part of a
`LogisticRegression`): weight vector plus intercept.  A freshly
constructed model has no weights and a zero intercept. -/
structure LinReg where
  weights : List (String × ℚ)
  intercept : ℚ
deriving DecidableEq, Repr

def freshLinReg : LinReg := { weights := [], intercept := 0 }

/-- River's raw regression output: dot product of the feature vector
with the weights (absent weights read as 0) plus the intercept. -/
def LinReg.predictOne (m : LinReg) (x : List (String × ℚ)) : ℚ :=
  (x.map (fun kv => ((dGet m.weights kv.1).getD 0) * kv.2)).sum + m.intercept

/-- `self` of `AIPredictor`: the degraded/online flag fixed at
construction, the history, statistics, and the two online models
(the running metrics affect no claim and are omitted). -/
structure Predictor where
  river_available : Bool
  game_history : List GameData
  player_stats : PlayerStats
  finger_model : LinReg
  choice_model : LinReg
deriving DecidableEq, Repr

/-- `AIPredictor()` on a first run (no persisted files exist, so the
`load_data()` call in `__init__` leaves every field at its default). -/
def freshPredictor (river_available : Bool) : Predictor :=
  { river_available := river_available
    game_history := []
    player_stats := freshStats
    finger_model := freshLinReg
    choice_model := freshLinReg }

/-- `AIPredictor.update_model(game_data)`.  When River is unavailable
it only refreshes the statistics and returns; otherwise it trains both
models (the SGD arithmetic is irrelevant to every claim, so the
learning steps are the parameters `learnF`/`learnC`; an exception in
them is swallowed by the `try`), then refreshes the statistics, then
appends the record to `game_history`. -/
def updateModel (learnF learnC : LinReg → GameData → LinReg)
    (p : Predictor) (gd : GameData) : Predictor :=
  if p.river_available = false then
    { p with player_stats := updateStatistics p.game_history p.player_stats gd }
  else
    let p1 : Predictor :=
      { p with
        finger_model := learnF p.finger_model gd
        choice_model := learnC p.choice_model gd }
    let p2 : Predictor :=
      { p1 with player_stats := updateStatistics p1.game_history p1.player_stats gd }
    { p2 with game_history := p2.game_history ++ [gd] }

/-- A whole session: feed a list of round outcomes through
`update_model` in order. -/
def runUpdates (learnF learnC : LinReg → GameData → LinReg)
    (p : Predictor) (gds : List GameData) : Predictor :=
  gds.foldl (updateModel learnF learnC) p

/-- `AIPredictor.reset_data()`: history and statistics back to the
constructor literals; models reinitialised only when River is
available. -/
def resetData (p : Predictor) : Predictor :=
  { p with
    game_history := []
    player_stats := freshStats
    finger_model := if p.river_available then freshLinReg else p.finger_model
    choice_model := if p.river_available then freshLinReg else p.choice_model }

/-- The dict returned by `predict_player_behavior` /
`_simple_prediction`. -/
structure Prediction where
  finger_count : FingerVal
  choice : String
  confidence : ℚ
deriving DecidableEq, Repr

/-- `AIPredictor._simple_prediction()`: the most frequent finger-count
KEY (an `int` or a `str`, whichever key of the dict carries the
maximal count), default 3; the most frequent choice, default odds;
confidence 0.1. -/
def simplePrediction (s : PlayerStats) : Prediction :=
  let fc := s.finger_counts
  let finger : FingerVal :=
    if 0 < (fc.map (fun kv => kv.2)).sum then
      match maxByVal fc with
      | some kv =>
        match kv.1 with
        | PKey.ikey n => FingerVal.intv n
        | PKey.skey t => FingerVal.strv t
      | none => FingerVal.intv 3
    else FingerVal.intv 3
  let ch := s.choice_history
  let choice : String :=
    if 0 < (ch.map (fun kv => kv.2)).sum then
      match maxByVal ch with
      | some kv => kv.1
      | none => "odds"
    else "odds"
  { finger_count := finger, choice := choice, confidence := 1/10 }

/-- Python 3 `round` to an integer: round half to even. -/
def pyRound (q : ℚ) : Int :=
  let f : Int := ⌊q⌋
  let frac : ℚ := q - (f : ℚ)
  if frac < 1/2 then f
  else if 1/2 < frac then f + 1
  else if f % 2 = 0 then f else f + 1

/-- The mandatory clamp of the online finger prediction:
`max(1, min(5, round(predicted_fingers)))`. -/
def clampFingers (q : ℚ) : Int := max 1 (min 5 (pyRound q))

/-- The online branch of `predict_player_behavior` after the two raw
model outputs are in hand: `rawFingers` is
`finger_model.predict_one(features)` and `choiceProba` is
`choice_model.predict_proba_one(features)` (a dict keyed by
`True`/`False`; `True` means odds).  An empty dict yields the odds /
0-confidence default; otherwise `odds_prob = proba.get(True, 0.5)`,
the choice is odds exactly when `odds_prob > 0.5`, and the confidence
is `abs(odds_prob - 0.5) * 2`. -/
def onlinePrediction (rawFingers : ℚ) (choiceProba : List (Bool × ℚ)) : Prediction :=
  let predicted_fingers : Int := clampFingers rawFingers
  if choiceProba ≠ [] then
    let odds_prob : ℚ := (dGet choiceProba true).getD (1/2)
    { finger_count := FingerVal.intv predicted_fingers
      choice := if 1/2 < odds_prob then "odds" else "evens"
      confidence := |odds_prob - 1/2| * 2 }
  else
    { finger_count := FingerVal.intv predicted_fingers
      choice := "odds"
      confidence := 0 }

/-- `predict_proba_one` of a freshly constructed
`LogisticRegression`: the linear score is 0 (empty weights, zero
intercept — see `freshLinReg`), and the sigmoid of 0 is exactly 1/2,
so the returned dict is `{False: 0.5, True: 0.5}`. -/
def freshChoiceProba : List (Bool × ℚ) := [(false, 1/2), (true, 1/2)]

/-- `AIPredictor.predict_player_behavior(game_state)`.  In degraded
mode it is `_simple_prediction()`.  Online, the pipeline first scales
the extracted features (`scaledFeats` — the scaler's effect is
irrelevant because every claim's model has an empty weight vector) and
feeds them to the finger model; `choiceProba` stands for
`choice_model.predict_proba_one(features)` (the sigmoid is not
rational, so the probability dict is passed in; `freshChoiceProba`
instantiates it for an untrained model). -/
def predictPlayerBehavior (p : Predictor) (scaledFeats : List (String × ℚ))
    (choiceProba : List (Bool × ℚ)) : Prediction :=
  if p.river_available = false then
    simplePrediction p.player_stats
  else
    onlinePrediction (p.finger_model.predictOne scaledFeats) choiceProba

/-- `'even' if predicted_choice == 'odds' else 'odd'`. -/
def targetParity (predicted_choice : String) : String :=
  if predicted_choice = "odds" then "even" else "odd"

/-- The `good_choices` list of `get_robot_strategy`: robot counts
`range(1, 6) = [1, 2, 3, 4, 5]` whose sum with the predicted player
count has the target parity. -/
def goodChoices (predicted_player_fingers : Int) (predicted_choice : String) : List Int :=
  ([1, 2, 3, 4, 5] : List Int).filterMap (fun robot_fingers =>
    let total : Int := predicted_player_fingers + robot_fingers
    let total_parity : String := if total % 2 = 1 then "odd" else "even"
    if total_parity = targetParity predicted_choice then some robot_fingers else none)

/-- `AIPredictor.get_robot_strategy`.  `r` models the randomness:
`random.choice(good_choices)` is the entry at index `r % len`.  A
string-valued predicted finger count makes `player + robot` raise
`TypeError`, which the `except` turns into the fixed value 3.  In the
empty-candidates branch the source says `random.randint(1, 5)`, but
`import random` is local to the taken `if` branch, so the name is an
unbound local there: the `except` again yields 3 (the branch is
unreachable anyway, see `goodChoices_ne_nil`). -/
def getRobotStrategy (predicted_player_fingers : FingerVal)
    (predicted_choice : String) (r : Nat) : Int :=
  match predicted_player_fingers with
  | FingerVal.intv n =>
    let good_choices := goodChoices n predicted_choice
    if good_choices.length ≠ 0 then
      good_choices.getD (r % good_choices.length) 3
    else 3
  | FingerVal.strv _ => 3

/-- `valid_numbers = [1, 2, 3, 4, 5]` in
`GameEngine.start_countdown_sequence`. -/
def validNumbers : List Int := [1, 2, 3, 4, 5]

/-- The caller-side validation in `start_countdown_sequence`: keep the
AI's number when it is one of `1..5`, otherwise substitute
`random.choice(valid_numbers)` (again modelled as indexing by
`r % 5`). -/
def smartRobotNumber (ai_robot_number : Int) (r : Nat) : Int :=
  if ai_robot_number ∈ validNumbers then ai_robot_number
  else validNumbers.getD (r % validNumbers.length) 1

/-- The statistics JSON document as parsed by `json.load`: a mapping
whose keys are strings; each required key may be absent.  (`patterns`
is not required and not consulted.) -/
structure StatsDoc where
  total_games : Option Nat
  total_rounds : Option Nat
  finger_counts : Option (List (String × Nat))
  choice_history : Option (List (String × Nat))
  win_rate : Option ℚ
deriving DecidableEq, Repr

/-- `str(key)` as applied by `json.dump` to a dict key: integer keys
are written in decimal, string keys as themselves. -/
def keyStr : PKey → String
  | PKey.ikey n => toString n
  | PKey.skey s => s

/-- What `json.dump` writes for `player_stats`: every field present,
finger-count keys stringified (the TEXT may then contain duplicate
keys, e.g. `2` and `'2'` both print as `"2"`). -/
def statsToDoc (s : PlayerStats) : StatsDoc :=
  { total_games := some s.total_games
    total_rounds := some s.total_rounds
    finger_counts := some (s.finger_counts.map (fun kv => (keyStr kv.1, kv.2)))
    choice_history := some s.choice_history
    win_rate := some s.win_rate }

/-- How `json.load` rebuilds an object: insert the key/value pairs in
textual order, so a duplicated key keeps its LAST value (at the
position of its first occurrence). -/
def jsonParseObj (l : List (String × Nat)) : List (String × Nat) :=
  l.foldl (fun acc kv => dSet acc kv.1 kv.2) []

/-- The statistics document as it comes back from a
`json.dump`/`json.load` round trip. -/
def docRoundTrip (d : StatsDoc) : StatsDoc :=
  { d with
    finger_counts := d.finger_counts.map jsonParseObj
    choice_history := d.choice_history.map jsonParseObj }

/-- The backfill loop of `load_data`: for `i` in `1..5`, if `str(i)`
is not a key of the accepted finger-count mapping, set it to 0. -/
def backfillFingers (fc : List (String × Nat)) : List (String × Nat) :=
  ([1, 2, 3, 4, 5] : List Int).foldl
    (fun acc i => if (dGet acc (toString i)).isNone then dSet acc (toString i) 0 else acc) fc

/-- The statistics branch of `AIPredictor.load_data()`: if any of the
five required keys is missing the parsed document is discarded and the
in-memory statistics are kept; otherwise the document replaces them
wholesale (all its keys are JSON string keys) and the finger-count
mapping is backfilled at `'1'..'5'`. -/
def loadStatsFromDoc (current : PlayerStats) (doc : StatsDoc) : PlayerStats :=
  match doc.total_games, doc.total_rounds, doc.finger_counts, doc.choice_history, doc.win_rate with
  | some tg, some tr, some fc, some ch, some wr =>
    { total_games := tg
      total_rounds := tr
      finger_counts := (backfillFingers fc).map (fun kv => (PKey.skey kv.1, kv.2))
      choice_history := ch
      win_rate := wr
      patterns := [] }
  | _, _, _, _, _ => current

/-- `save_data()` immediately followed by `load_data()` with no
intervening mutation.  The history document is a JSON list of records
and round-trips to the same list; the model blob round-trips through
`pickle` to an equal model; the statistics document goes through the
key-stringifying round trip of `statsToDoc`/`docRoundTrip` and back in
through the `load_data` acceptance/backfill path. -/
def saveLoad (p : Predictor) : Predictor :=
  { p with
    player_stats := loadStatsFromDoc p.player_stats (docRoundTrip (statsToDoc p.player_stats)) }

/-- Total usage recorded for the finger value `i` (the mapping's
entries for `i` under either key representation: the integer key `i`
and the string key `str(i)`). -/
def fingerUsage (fc : List (PKey × Nat)) (i : Int) : Nat :=
  (dGet fc (PKey.ikey i)).getD 0 + (dGet fc (PKey.skey (toString i))).getD 0

/-- The sum of the finger-count usage mapping over the counts 1-5. -/
def fingerUsageSum (fc : List (PKey × Nat)) : Nat :=
  fingerUsage fc 1 + fingerUsage fc 2 + fingerUsage fc 3 + fingerUsage fc 4 + fingerUsage fc 5

/-- `game_data` has an in-range player finger count (`1 <= f <= 5`). -/
def inRangeFingers (gd : GameData) : Bool :=
  decide (1 ≤ gd.player_fingers.getD 3 ∧ gd.player_fingers.getD 3 ≤ 5)

/-- Number of recorded rounds the player won. -/
def winsOf (gds : List GameData) : Nat :=
  (gds.filter (fun g => g.player_won_round.getD false)).length

/-- Checker for the shape every reachable `finger_counts` mapping has:
a (possibly empty) prefix of zero-valued integer-keyed entries (the
constructor literals), followed by a duplicate-free all-string-keyed
suffix (the `_update_statistics` increments, or a mapping accepted by
`load_data`). -/
def isSkeyPair (kv : PKey × Nat) : Bool :=
  match kv.1 with
  | PKey.skey _ => true
  | PKey.ikey _ => false

def allSkeyNodup (l : List (PKey × Nat)) : Bool :=
  l.all isSkeyPair && (l.map (fun kv => kv.1)).Nodup

def wellKeyed : List (PKey × Nat) → Bool
  | [] => true
  | kv :: rest =>
    match kv with
    | (PKey.ikey _, 0) => wellKeyed rest
    | (PKey.skey _, _) => allSkeyNodup (kv :: rest)
    | (PKey.ikey _, _ + 1) => false

/-- A sample round outcome: the player showed 2 fingers, declared
odds and won the round. -/
def gdWin : GameData :=
  { player_fingers := some 2
    player_choice := some "odds"
    player_won_round := some true
    game_finished := some false
    current_round := some 1 }

/-- A sample degenerate round outcome: 0 fingers detected (out of the
valid 1-5 range), round lost. -/
def gdZero : GameData :=
  { player_fingers := some 0
    player_choice := some "evens"
    player_won_round := some false
    game_finished := some false
    current_round := some 2 }

/-- The identity learning step, used to instantiate the quantified
learner parameters at concrete inputs. -/
def idLearn : LinReg → GameData → LinReg := fun m _ => m

/-- A statistics document corrupted as in end-to-end scenario C: the
required key `win_rate` was removed. -/
def docMissingWinRate : StatsDoc :=
  { total_games := some 3
    total_rounds := some 3
    finger_counts := some [("2", 3)]
    choice_history := some [("odds", 3)]
    win_rate := none }

/-- A complete statistics document whose finger-count mapping lacks
the keys other than `'2'` (they must be backfilled with 0). -/
def docAccepted : StatsDoc :=
  { total_games := some 3
    total_rounds := some 3
    finger_counts := some [("2", 3)]
    choice_history := some [("odds", 3)]
    win_rate := some 1 }

/-! ## Association-list lemmas -/

theorem dGet_dSet_self {κ α : Type} [DecidableEq κ] (l : List (κ × α)) (k : κ) (v : α) :
    dGet (dSet l k v) k = some v := by
  induction l with
  | nil => simp [dGet, dSet]
  | cons kv rest ih =>
    by_cases h : kv.1 = k
    · simp [dSet, h, dGet]
    · simp [dSet, h, dGet, ih]

theorem dGet_dSet_ne {κ α : Type} [DecidableEq κ] (l : List (κ × α)) (k k' : κ) (v : α)
    (h : k' ≠ k) : dGet (dSet l k v) k' = dGet l k' := by
  have hkk : ¬k = k' := fun hh => h hh.symm
  induction l with
  | nil => simp [dGet, dSet, hkk]
  | cons kv rest ih =>
    by_cases hk : kv.1 = k
    · subst hk
      simp [dSet, dGet, hkk]
    · by_cases hk' : kv.1 = k'
      · simp [dSet, hk, dGet, hk', h]
      · simp [dSet, hk, dGet, hk', ih]

theorem dGet_append_some {κ α : Type} [DecidableEq κ] {a : List (κ × α)} (b : List (κ × α))
    {k : κ} {v : α} (h : dGet a k = some v) : dGet (a ++ b) k = some v := by
  induction a with
  | nil => simp [dGet] at h
  | cons kv rest ih =>
    rw [List.cons_append]
    by_cases hk : kv.1 = k
    · simp only [dGet, if_pos hk] at h ⊢
      exact h
    · simp only [dGet, if_neg hk] at h ⊢
      exact ih h

theorem dGet_append_none {κ α : Type} [DecidableEq κ] {a : List (κ × α)} (b : List (κ × α))
    {k : κ} (h : dGet a k = none) : dGet (a ++ b) k = dGet b k := by
  induction a with
  | nil => simp [dGet]
  | cons kv rest ih =>
    rw [List.cons_append]
    by_cases hk : kv.1 = k
    · simp [dGet, if_pos hk] at h
    · simp only [dGet, if_neg hk] at h ⊢
      exact ih h

theorem dGet_eq_none_iff {κ α : Type} [DecidableEq κ] (l : List (κ × α)) (k : κ) :
    dGet l k = none ↔ k ∉ l.map Prod.fst := by
  induction l with
  | nil => simp [dGet]
  | cons kv rest ih =>
    by_cases hk : kv.1 = k
    · simp [dGet, hk]
    · have hk2 : ¬k = kv.1 := fun hh => hk hh.symm
      simp [dGet, hk, ih, hk2]

theorem dGet_reverse_of_nodup {κ α : Type} [DecidableEq κ] (l : List (κ × α)) (k : κ)
    (h : (l.map Prod.fst).Nodup) : dGet l.reverse k = dGet l k := by
  induction l with
  | nil => rfl
  | cons kv rest ih =>
    rw [List.map_cons, List.nodup_cons] at h
    rw [List.reverse_cons]
    by_cases hk : kv.1 = k
    · subst hk
      have hrev : dGet rest.reverse kv.1 = none := by
        rw [dGet_eq_none_iff]
        simpa using h.1
      rw [dGet_append_none _ hrev]
      simp [dGet]
    · rw [dGet]
      cases hr : dGet rest.reverse k with
      | some v =>
        rw [dGet_append_some _ hr, if_neg hk, ← ih h.2, hr]
      | none =>
        rw [dGet_append_none _ hr, if_neg hk, ← ih h.2, hr]
        simp [dGet, hk]

theorem dGet_foldl_dSet {κ α : Type} [DecidableEq κ] (l : List (κ × α)) (acc : List (κ × α))
    (k : κ) :
    dGet (l.foldl (fun a kv => dSet a kv.1 kv.2) acc) k =
      match dGet l.reverse k with
      | some v => some v
      | none => dGet acc k := by
  induction l generalizing acc with
  | nil => simp [dGet]
  | cons kv rest ih =>
    rw [List.foldl_cons, ih, List.reverse_cons]
    cases hr : dGet rest.reverse k with
    | some v => rw [dGet_append_some _ hr]
    | none =>
      rw [dGet_append_none _ hr]
      by_cases hk : kv.1 = k
      · subst hk
        simp [dGet, dGet_dSet_self]
      · simp [dGet, hk, dGet_dSet_ne _ _ _ _ (fun hh => hk hh.symm)]

theorem dGet_jsonParseObj (l : List (String × Nat)) (k : String) :
    dGet (jsonParseObj l) k = dGet l.reverse k := by
  rw [jsonParseObj, dGet_foldl_dSet]
  cases h : dGet l.reverse k <;> simp [dGet]

/-! ## Strategy-selector lemmas (C1, C9) -/

theorem mem_goodChoices {pf x : Int} {c : String} (h : x ∈ goodChoices pf c) :
    (1 ≤ x ∧ x ≤ 5) ∧
      (if (pf + x) % 2 = 1 then "odd" else "even") = targetParity c := by
  simp only [goodChoices, List.mem_filterMap] at h
  obtain ⟨rf, hrf, hx⟩ := h
  simp only [List.mem_cons, List.not_mem_nil, or_false] at hrf
  have hb : 1 ≤ rf ∧ rf ≤ 5 := by
    rcases hrf with rfl | rfl | rfl | rfl | rfl <;> norm_num
  by_cases hpar : (pf + rf) % 2 = 1
  · rw [if_pos hpar] at hx
    by_cases ht : ("odd" : String) = targetParity c
    · rw [if_pos ht, Option.some_inj] at hx
      subst hx
      exact ⟨hb, by rw [if_pos hpar]; exact ht⟩
    · rw [if_neg ht] at hx
      exact absurd hx (by simp)
  · rw [if_neg hpar] at hx
    by_cases ht : ("even" : String) = targetParity c
    · rw [if_pos ht, Option.some_inj] at hx
      subst hx
      exact ⟨hb, by rw [if_neg hpar]; exact ht⟩
    · rw [if_neg ht] at hx
      exact absurd hx (by simp)

theorem goodChoices_ne_nil (pf : Int) (c : String) : goodChoices pf c ≠ [] := by
  rcases Int.emod_two_eq pf with h | h <;> by_cases hc : c = "odds"
  · -- even player count, target parity "even": robot 2 qualifies
    apply List.ne_nil_of_mem (a := (2 : Int))
    simp only [goodChoices, List.mem_filterMap]
    refine ⟨2, by simp, ?_⟩
    rw [if_neg (by omega : ¬(pf + 2) % 2 = 1), targetParity, if_pos hc, if_pos rfl]
  · -- even player count, target parity "odd": robot 1 qualifies
    apply List.ne_nil_of_mem (a := (1 : Int))
    simp only [goodChoices, List.mem_filterMap]
    refine ⟨1, by simp, ?_⟩
    rw [if_pos (by omega : (pf + 1) % 2 = 1), targetParity, if_neg hc, if_pos rfl]
  · -- odd player count, target parity "even": robot 1 qualifies
    apply List.ne_nil_of_mem (a := (1 : Int))
    simp only [goodChoices, List.mem_filterMap]
    refine ⟨1, by simp, ?_⟩
    rw [if_neg (by omega : ¬(pf + 1) % 2 = 1), targetParity, if_pos hc, if_pos rfl]
  · -- odd player count, target parity "odd": robot 2 qualifies
    apply List.ne_nil_of_mem (a := (2 : Int))
    simp only [goodChoices, List.mem_filterMap]
    refine ⟨2, by simp, ?_⟩
    rw [if_pos (by omega : (pf + 2) % 2 = 1), targetParity, if_neg hc, if_pos rfl]

theorem getRobotStrategy_mem (pf : Int) (c : String) (r : Nat) :
    getRobotStrategy (FingerVal.intv pf) c r ∈ goodChoices pf c := by
  have hne := goodChoices_ne_nil pf c
  have hlen : (goodChoices pf c).length ≠ 0 := by
    simpa [List.length_eq_zero] using hne
  have hlt : r % (goodChoices pf c).length < (goodChoices pf c).length :=
    Nat.mod_lt _ (Nat.pos_of_ne_zero hlen)
  rw [getRobotStrategy]
  simp only [if_pos hlen]
  rw [List.getD_eq_getElem _ _ hlt]
  exact List.getElem_mem _

/-- C1: for every predicted finger count in 1..5, every predicted
choice in {odds, evens} and every random draw, `get_robot_strategy`
returns a value in {1,...,5} whose sum with the predicted count is
even when the predicted choice is odds and odd when it is evens. -/
theorem C1_strategy_defeats_predicted_choice (pf : Int) (c : String) (r : Nat)
    (hpf : 1 ≤ pf ∧ pf ≤ 5) (hc : c = "odds" ∨ c = "evens") :
    (1 ≤ getRobotStrategy (FingerVal.intv pf) c r ∧
      getRobotStrategy (FingerVal.intv pf) c r ≤ 5) ∧
    (c = "odds" → (pf + getRobotStrategy (FingerVal.intv pf) c r) % 2 = 0) ∧
    (c = "evens" → (pf + getRobotStrategy (FingerVal.intv pf) c r) % 2 = 1) := by
  obtain ⟨hb, hp⟩ := mem_goodChoices (getRobotStrategy_mem pf c r)
  refine ⟨hb, ?_, ?_⟩
  · intro hco
    subst hco
    rw [targetParity, if_pos rfl] at hp
    by_cases h1 : (pf + getRobotStrategy (FingerVal.intv pf) "odds" r) % 2 = 1
    · rw [if_pos h1] at hp
      exact absurd hp (by decide)
    · omega
  · intro hce
    subst hce
    rw [targetParity, if_neg (show ¬("evens" = "odds") by decide)] at hp
    by_cases h1 : (pf + getRobotStrategy (FingerVal.intv pf) "evens" r) % 2 = 1
    · exact h1
    · rw [if_neg h1] at hp
      exact absurd hp (by decide)

/-- Witness for C1 at the concrete input of end-to-end scenario A:
predicted count 3, predicted choice odds, first random draw. -/
theorem C1_witness :
    ((1 ≤ (3 : Int) ∧ (3 : Int) ≤ 5) ∧ ("odds" = "odds" ∨ "odds" = "evens")) ∧
    ((1 ≤ getRobotStrategy (FingerVal.intv 3) "odds" 0 ∧
        getRobotStrategy (FingerVal.intv 3) "odds" 0 ≤ 5) ∧
      ("odds" = "odds" → (3 + getRobotStrategy (FingerVal.intv 3) "odds" 0) % 2 = 0) ∧
      ("odds" = "evens" → (3 + getRobotStrategy (FingerVal.intv 3) "odds" 0) % 2 = 1)) :=
  ⟨⟨by decide, by decide⟩,
    C1_strategy_defeats_predicted_choice 3 "odds" 0 (by decide) (by decide)⟩

/-- C9 counterexample: on the internal-error path (here a string-typed
predicted finger count, which makes `player + robot` raise `TypeError`)
the selector returns the FIXED value 3 on every random draw — not a
value drawn uniformly at random from {1,...,5} as the claim states
(the value 1, for instance, is never produced). -/
theorem C9_counterexample :
    getRobotStrategy (FingerVal.strv "3") "odds" 0 = 3 ∧
    getRobotStrategy (FingerVal.strv "3") "odds" 1 = 3 ∧
    getRobotStrategy (FingerVal.strv "3") "odds" 2 = 3 ∧
    getRobotStrategy (FingerVal.strv "3") "odds" 3 = 3 ∧
    getRobotStrategy (FingerVal.strv "3") "odds" 4 = 3 :=
  ⟨rfl, rfl, rfl, rfl, rfl⟩

/-- C9 (amended): on an internal error `get_robot_strategy` returns the
fixed fallback 3 (for every random draw); the guarded no-candidate
branch is unreachable because the candidate list is never empty; and
the caller (`start_countdown_sequence`) does replace every invalid
selector output with a uniform-random pick over 1-5 — the substitute is
always in {1,...,5} and every value of {1,...,5} is reachable from some
draw. -/
theorem C9_error_fallback_behavior :
    (∀ (s c : String) (r : Nat), getRobotStrategy (FingerVal.strv s) c r = 3) ∧
    (∀ (pf : Int) (c : String), goodChoices pf c ≠ []) ∧
    (∀ (x : Int) (r : Nat), ¬x ∈ validNumbers → smartRobotNumber x r ∈ validNumbers) ∧
    (∀ x : Int, ¬x ∈ validNumbers → ∀ v ∈ validNumbers, ∃ r, smartRobotNumber x r = v) := by
  refine ⟨fun s c r => rfl, goodChoices_ne_nil, ?_, ?_⟩
  · intro x r hx
    rw [smartRobotNumber, if_neg hx]
    have h5 : r % validNumbers.length < validNumbers.length :=
      Nat.mod_lt _ (by decide)
    rw [List.getD_eq_getElem _ _ h5]
    exact List.getElem_mem _
  · intro x hx v hv
    fin_cases hv
    · exact ⟨0, by rw [smartRobotNumber, if_neg hx]; rfl⟩
    · exact ⟨1, by rw [smartRobotNumber, if_neg hx]; rfl⟩
    · exact ⟨2, by rw [smartRobotNumber, if_neg hx]; rfl⟩
    · exact ⟨3, by rw [smartRobotNumber, if_neg hx]; rfl⟩
    · exact ⟨4, by rw [smartRobotNumber, if_neg hx]; rfl⟩

/-- Witness for C9 at the out-of-range selector output 9: the caller's
substitute is valid, and the draw index 4 produces the value 5. -/
theorem C9_witness :
    (¬(9 : Int) ∈ validNumbers) ∧ smartRobotNumber 9 0 ∈ validNumbers ∧
      ∃ r, smartRobotNumber 9 r = 5 :=
  ⟨by decide, C9_error_fallback_behavior.2.2.1 9 0 (by decide),
    C9_error_fallback_behavior.2.2.2 9 (by decide) 5 (by decide)⟩

/-! ## Statistics-update lemmas (C3, C4, C5) -/

theorem updateStatistics_total_rounds (h : List GameData) (s : PlayerStats) (gd : GameData) :
    (updateStatistics h s gd).total_rounds = s.total_rounds + 1 := rfl

theorem updateStatistics_finger_counts (h : List GameData) (s : PlayerStats) (gd : GameData) :
    (updateStatistics h s gd).finger_counts =
      if 1 ≤ gd.player_fingers.getD 3 ∧ gd.player_fingers.getD 3 ≤ 5 then
        dIncr s.finger_counts (PKey.skey (toString (gd.player_fingers.getD 3)))
      else s.finger_counts := rfl

theorem updateStatistics_win_rate (h : List GameData) (s : PlayerStats) (gd : GameData) :
    (updateStatistics h s gd).win_rate =
      ((winsOf h + (if gd.player_won_round.getD false then 1 else 0) : Nat) : ℚ) /
        ((s.total_rounds + 1 : Nat) : ℚ) := by
  have e : (updateStatistics h s gd).win_rate =
      if 0 < s.total_rounds + 1 then
        (((h.filter (fun g => g.player_won_round.getD false)).length +
            (if gd.player_won_round.getD false then 1 else 0) : Nat) : ℚ) /
          ((s.total_rounds + 1 : Nat) : ℚ)
      else s.win_rate := rfl
  rw [e, if_pos (Nat.succ_pos _), winsOf]

theorem updateModel_player_stats (lF lC : LinReg → GameData → LinReg) (p : Predictor)
    (gd : GameData) :
    (updateModel lF lC p gd).player_stats =
      updateStatistics p.game_history p.player_stats gd := by
  rw [updateModel]
  split_ifs <;> rfl

theorem updateModel_game_history (lF lC : LinReg → GameData → LinReg) (p : Predictor)
    (gd : GameData) :
    (updateModel lF lC p gd).game_history =
      if p.river_available = false then p.game_history else p.game_history ++ [gd] := by
  rw [updateModel]
  split_ifs <;> rfl

theorem updateModel_river (lF lC : LinReg → GameData → LinReg) (p : Predictor)
    (gd : GameData) :
    (updateModel lF lC p gd).river_available = p.river_available := by
  rw [updateModel]
  split_ifs <;> rfl

theorem runUpdates_cons (lF lC : LinReg → GameData → LinReg) (p : Predictor)
    (gd : GameData) (rest : List GameData) :
    runUpdates lF lC p (gd :: rest) = runUpdates lF lC (updateModel lF lC p gd) rest := by
  rw [runUpdates, runUpdates, List.foldl_cons]

theorem fingerUsage_dIncr_self (fc : List (PKey × Nat)) (f : Int) :
    fingerUsage (dIncr fc (PKey.skey (toString f))) f = fingerUsage fc f + 1 := by
  rw [fingerUsage, fingerUsage, dIncr, dGet_dSet_self,
    dGet_dSet_ne _ _ _ _ (by simp : PKey.ikey f ≠ PKey.skey (toString f))]
  simp only [Option.getD_some]
  omega

theorem fingerUsage_dIncr_other (fc : List (PKey × Nat)) (f i : Int)
    (hne : toString f ≠ toString i) :
    fingerUsage (dIncr fc (PKey.skey (toString f))) i = fingerUsage fc i := by
  rw [fingerUsage, fingerUsage, dIncr,
    dGet_dSet_ne _ _ _ _ (by simp : PKey.ikey i ≠ PKey.skey (toString f)),
    dGet_dSet_ne _ _ _ _
      (fun hh => hne (PKey.skey.inj hh).symm : PKey.skey (toString i) ≠ PKey.skey (toString f))]

theorem fingerUsageSum_dIncr (fc : List (PKey × Nat)) (f : Int)
    (hf : 1 ≤ f ∧ f ≤ 5) :
    fingerUsageSum (dIncr fc (PKey.skey (toString f))) = fingerUsageSum fc + 1 := by
  obtain ⟨h1, h5⟩ := hf
  interval_cases f
  · simp only [fingerUsageSum]
    rw [fingerUsage_dIncr_self, fingerUsage_dIncr_other _ _ _ (by decide),
      fingerUsage_dIncr_other _ _ _ (by decide), fingerUsage_dIncr_other _ _ _ (by decide),
      fingerUsage_dIncr_other _ _ _ (by decide)]
    omega
  · simp only [fingerUsageSum]
    rw [fingerUsage_dIncr_self, fingerUsage_dIncr_other _ _ _ (by decide),
      fingerUsage_dIncr_other _ _ _ (by decide), fingerUsage_dIncr_other _ _ _ (by decide),
      fingerUsage_dIncr_other _ _ _ (by decide)]
    omega
  · simp only [fingerUsageSum]
    rw [fingerUsage_dIncr_self, fingerUsage_dIncr_other _ _ _ (by decide),
      fingerUsage_dIncr_other _ _ _ (by decide), fingerUsage_dIncr_other _ _ _ (by decide),
      fingerUsage_dIncr_other _ _ _ (by decide)]
    omega
  · simp only [fingerUsageSum]
    rw [fingerUsage_dIncr_self, fingerUsage_dIncr_other _ _ _ (by decide),
      fingerUsage_dIncr_other _ _ _ (by decide), fingerUsage_dIncr_other _ _ _ (by decide),
      fingerUsage_dIncr_other _ _ _ (by decide)]
    omega
  · simp only [fingerUsageSum]
    rw [fingerUsage_dIncr_self, fingerUsage_dIncr_other _ _ _ (by decide),
      fingerUsage_dIncr_other _ _ _ (by decide), fingerUsage_dIncr_other _ _ _ (by decide),
      fingerUsage_dIncr_other _ _ _ (by decide)]
    omega

theorem updateStatistics_fingerUsageSum (h : List GameData) (s : PlayerStats) (gd : GameData) :
    fingerUsageSum (updateStatistics h s gd).finger_counts =
      fingerUsageSum s.finger_counts + (if inRangeFingers gd then 1 else 0) := by
  rw [updateStatistics_finger_counts]
  by_cases hin : 1 ≤ gd.player_fingers.getD 3 ∧ gd.player_fingers.getD 3 ≤ 5
  · rw [if_pos hin, fingerUsageSum_dIncr _ _ hin]
    simp [inRangeFingers, hin]
  · rw [if_neg hin]
    simp [inRangeFingers, hin]

theorem runUpdates_stats_counts (lF lC : LinReg → GameData → LinReg) (gds : List GameData) :
    ∀ p : Predictor,
      (runUpdates lF lC p gds).player_stats.total_rounds =
        p.player_stats.total_rounds + gds.length ∧
      fingerUsageSum (runUpdates lF lC p gds).player_stats.finger_counts =
        fingerUsageSum p.player_stats.finger_counts +
          (gds.filter (fun gd => inRangeFingers gd)).length := by
  induction gds with
  | nil => intro p; simp [runUpdates]
  | cons gd rest ih =>
    intro p
    rw [runUpdates_cons]
    obtain ⟨ht, hf⟩ := ih (updateModel lF lC p gd)
    constructor
    · rw [ht, updateModel_player_stats, updateStatistics_total_rounds, List.length_cons]
      omega
    · rw [hf, updateModel_player_stats, updateStatistics_fingerUsageSum, List.filter_cons]
      by_cases hin : inRangeFingers gd = true
      · simp only [hin, if_true, if_pos, List.length_cons]
        omega
      · simp only [hin]
        simp only [Bool.false_eq_true, if_false]
        omega

/-- C3: starting from a fresh predictor, after feeding N round outcomes
through `update_model` (in either mode, for any learner behaviour)
`total_rounds` equals N and the total usage recorded in the
finger-count mapping for the counts 1-5 equals the number of those
rounds whose player finger count lies in 1..5. -/
theorem C3_statistics_invariant (avail : Bool) (lF lC : LinReg → GameData → LinReg)
    (gds : List GameData) :
    (runUpdates lF lC (freshPredictor avail) gds).player_stats.total_rounds = gds.length ∧
    fingerUsageSum (runUpdates lF lC (freshPredictor avail) gds).player_stats.finger_counts =
      (gds.filter (fun gd => inRangeFingers gd)).length := by
  obtain ⟨ht, hf⟩ := runUpdates_stats_counts lF lC gds (freshPredictor avail)
  have h0 : fingerUsageSum freshStats.finger_counts = 0 := by decide
  constructor
  · rw [ht]
    have h00 : (freshPredictor avail).player_stats.total_rounds = 0 := rfl
    omega
  · rw [hf]
    have h01 : fingerUsageSum (freshPredictor avail).player_stats.finger_counts = 0 := h0
    omega

/-- C4 counterexample: in degraded mode (River unavailable) a call to
`update_model` appends NOTHING to the game history — the claim's
"exactly one record in both modes" fails at the very first round. -/
theorem C4_counterexample :
    ¬((updateModel idLearn idLearn (freshPredictor false) gdWin).game_history =
      (freshPredictor false).game_history ++ [gdWin]) := by
  decide

/-- C4 (amended): when the online models are available, each call to
`update_model` appends exactly one record at the END of the history
(existing records are neither reordered nor removed); in degraded mode
it appends nothing; and only `reset_data` clears the history. -/
theorem C4_history_append_online (lF lC : LinReg → GameData → LinReg) (p : Predictor)
    (gd : GameData) :
    (p.river_available = true →
      (updateModel lF lC p gd).game_history = p.game_history ++ [gd]) ∧
    (p.river_available = false →
      (updateModel lF lC p gd).game_history = p.game_history) ∧
    (resetData p).game_history = [] := by
  refine ⟨?_, ?_, rfl⟩
  · intro h
    rw [updateModel_game_history, if_neg (by simp [h])]
  · intro h
    rw [updateModel_game_history, if_pos h]

/-- Witness for C4 at a concrete online-mode predictor and round. -/
theorem C4_witness :
    ((freshPredictor true).river_available = true) ∧
    (updateModel idLearn idLearn (freshPredictor true) gdWin).game_history =
      (freshPredictor true).game_history ++ [gdWin] :=
  ⟨rfl, (C4_history_append_online idLearn idLearn (freshPredictor true) gdWin).1 rfl⟩

theorem winsOf_append (a b : List GameData) : winsOf (a ++ b) = winsOf a + winsOf b := by
  rw [winsOf, winsOf, winsOf, List.filter_append, List.length_append]

theorem winsOf_singleton (gd : GameData) :
    winsOf [gd] = if gd.player_won_round.getD false then 1 else 0 := by
  rw [winsOf, List.filter_cons]
  by_cases h : gd.player_won_round.getD false = true
  · simp [h]
  · simp [h]

theorem runUpdates_winrate_online (lF lC : LinReg → GameData → LinReg)
    (gds : List GameData) :
    ∀ (p : Predictor) (gd0 : GameData),
      p.river_available = true →
      p.player_stats.total_rounds = p.game_history.length →
      (runUpdates lF lC p (gd0 :: gds)).player_stats.win_rate =
        ((winsOf (p.game_history ++ gd0 :: gds) : Nat) : ℚ) /
          ((p.game_history.length + (gd0 :: gds).length : Nat) : ℚ) := by
  induction gds with
  | nil =>
    intro p gd0 hav htot
    have e : runUpdates lF lC p [gd0] = updateModel lF lC p gd0 := by
      rw [runUpdates, List.foldl_cons, List.foldl_nil]
    rw [e, updateModel_player_stats, updateStatistics_win_rate, winsOf_append,
      winsOf_singleton, htot]
    simp
  | cons gd1 rest ih =>
    intro p gd0 hav htot
    rw [runUpdates_cons]
    have hav' : (updateModel lF lC p gd0).river_available = true := by
      rw [updateModel_river]
      exact hav
    have hh : (updateModel lF lC p gd0).game_history = p.game_history ++ [gd0] := by
      rw [updateModel_game_history, if_neg (by simp [hav])]
    have htot' : (updateModel lF lC p gd0).player_stats.total_rounds =
        (updateModel lF lC p gd0).game_history.length := by
      rw [updateModel_player_stats, updateStatistics_total_rounds, hh,
        List.length_append, htot]
      simp
    rw [ih (updateModel lF lC p gd0) gd1 hav' htot', hh]
    have hn : (p.game_history ++ [gd0]).length + (gd1 :: rest).length =
        p.game_history.length + (gd0 :: gd1 :: rest).length := by
      simp
      omega
    rw [List.append_assoc, List.singleton_append, hn]

/-- C5 counterexample: in degraded mode the history is never appended,
so after two winning rounds the recomputed win rate is 1/2 although the
player won 2 of 2 rounds (the claim demands wins/total = 1 in the
degraded mode too). -/
theorem C5_counterexample :
    (runUpdates idLearn idLearn (freshPredictor false) [gdWin, gdWin]).player_stats.win_rate
        = 1 / 2 ∧
      ((winsOf [gdWin, gdWin] : Nat) : ℚ) / (([gdWin, gdWin].length : Nat) : ℚ) = 1 := by
  constructor
  · rw [runUpdates_cons, runUpdates_cons, runUpdates, List.foldl_nil,
      updateModel_player_stats, updateStatistics_win_rate]
    have hh1 : (updateModel idLearn idLearn (freshPredictor false) gdWin).game_history = [] := by
      rw [updateModel_game_history, if_pos (by rfl :
        (freshPredictor false).river_available = false)]
      rfl
    have ht1 : (updateModel idLearn idLearn
        (freshPredictor false) gdWin).player_stats.total_rounds = 1 := by
      rw [updateModel_player_stats, updateStatistics_total_rounds]
      rfl
    rw [hh1, ht1]
    norm_num [winsOf, gdWin]
  · norm_num [winsOf, gdWin]

/-- C5 (amended): in the online mode, after any nonempty sequence of
rounds fed through `update_model` from a fresh predictor, `win_rate`
equals the number of player-won rounds divided by `total_rounds`; in
degraded mode the numerator degenerates to the last round's win flag
(see the counterexample). -/
theorem C5_winrate_online (lF lC : LinReg → GameData → LinReg) (gds : List GameData)
    (h : gds ≠ []) :
    (runUpdates lF lC (freshPredictor true) gds).player_stats.win_rate =
      ((winsOf gds : Nat) : ℚ) / ((gds.length : Nat) : ℚ) := by
  obtain ⟨gd0, rest, rfl⟩ := List.exists_cons_of_ne_nil h
  have := runUpdates_winrate_online lF lC rest (freshPredictor true) gd0 rfl rfl
  simp only [freshPredictor, List.nil_append, List.length_nil, Nat.zero_add] at this
  exact this

/-- Witness for C5 at the single winning round. -/
theorem C5_witness :
    ([gdWin] ≠ ([] : List GameData)) ∧
    (runUpdates idLearn idLearn (freshPredictor true) [gdWin]).player_stats.win_rate =
      ((winsOf [gdWin] : Nat) : ℚ) / (([gdWin].length : Nat) : ℚ) :=
  ⟨by decide, C5_winrate_online idLearn idLearn [gdWin] (by decide)⟩

/-! ## Prediction-path lemmas (C2, C8) -/

/-- C2: evaluation at the failing input.  After one degraded-mode round
with `player_fingers = 2`, the statistics map the STRING key `'2'` to 1
while the integer keys stay 0, so `_simple_prediction` — which returns
the dict key with the maximal count — hands back the string `'2'` as
the predicted finger count, not an integer in {1,...,5}. -/
theorem C2_fallback_string_eval :
    (predictPlayerBehavior (updateModel idLearn idLearn (freshPredictor false) gdWin)
        [] []).finger_count = FingerVal.strv "2" := by
  decide

theorem predictOne_fresh (x : List (String × ℚ)) : freshLinReg.predictOne x = 0 := by
  induction x with
  | nil => simp [LinReg.predictOne, freshLinReg]
  | cons kv rest ih =>
    have e : freshLinReg.predictOne (kv :: rest) =
        ((dGet freshLinReg.weights kv.1).getD 0) * kv.2 + freshLinReg.predictOne rest := by
      rw [LinReg.predictOne, LinReg.predictOne, List.map_cons, List.sum_cons]
      ring
    rw [e, ih]
    simp [freshLinReg, dGet]

theorem clampFingers_zero : clampFingers 0 = 1 := by
  norm_num [clampFingers, pyRound]

theorem onlinePrediction_fresh :
    onlinePrediction 0 freshChoiceProba =
      { finger_count := FingerVal.intv 1, choice := "evens", confidence := 0 } := by
  rw [onlinePrediction, if_pos (show freshChoiceProba ≠ [] by simp [freshChoiceProba])]
  rw [show dGet freshChoiceProba true = some (1/2 : ℚ) from rfl]
  rw [clampFingers_zero]
  norm_num

/-- C8 counterexample: in the online mode with freshly initialized
(untrained) models — raw regression output 0, odds-probability exactly
1/2 — `predict_player_behavior` on an empty history returns the clamped
finger count 1 and the choice "evens" (0.5 is not > 0.5), NOT the
neutral default finger count 3 with choice "odds" that the claim
states. -/
theorem C8_counterexample :
    (predictPlayerBehavior (freshPredictor true) [] freshChoiceProba).finger_count
        ≠ FingerVal.intv 3 ∧
      (predictPlayerBehavior (freshPredictor true) [] freshChoiceProba).choice ≠ "odds" := by
  have e : predictPlayerBehavior (freshPredictor true) [] freshChoiceProba =
      onlinePrediction 0 freshChoiceProba := by
    rw [predictPlayerBehavior,
      if_neg (by decide : ¬(freshPredictor true).river_available = false)]
    rw [show (freshPredictor true).finger_model.predictOne [] = 0 from predictOne_fresh []]
  rw [e, onlinePrediction_fresh]
  constructor <;> simp

/-- C8 (amended): with empty history and zeroed statistics the
prediction never fails; in degraded mode it is the neutral default
(finger count 3, choice odds, confidence 0.1); in online mode with
freshly initialized models (raw output 0, odds-probability 1/2) it is
finger count 1, choice "evens", confidence 0 — not the 3/odds default. -/
theorem C8_empty_history_defaults :
    (∀ (feats : List (String × ℚ)) (proba : List (Bool × ℚ)),
      predictPlayerBehavior (freshPredictor false) feats proba =
        { finger_count := FingerVal.intv 3, choice := "odds", confidence := 1/10 }) ∧
    (∀ feats : List (String × ℚ),
      predictPlayerBehavior (freshPredictor true) feats freshChoiceProba =
        { finger_count := FingerVal.intv 1, choice := "evens", confidence := 0 }) := by
  constructor
  · intro feats proba
    rw [predictPlayerBehavior,
      if_pos (by rfl : (freshPredictor false).river_available = false)]
    rfl
  · intro feats
    rw [predictPlayerBehavior,
      if_neg (by decide : ¬(freshPredictor true).river_available = false)]
    rw [show (freshPredictor true).finger_model.predictOne feats = 0 from
      predictOne_fresh feats]
    exact onlinePrediction_fresh

/-! ## Load-path lemmas (C6, C7) -/

theorem dGet_backfillStep (a : List (String × Nat)) (t s : String) :
    dGet (if (dGet a t).isNone then dSet a t 0 else a) s =
      if s = t then some ((dGet a t).getD 0) else dGet a s := by
  by_cases hn : (dGet a t).isNone
  · rw [if_pos hn]
    rw [Option.isNone_iff_eq_none] at hn
    by_cases hs : s = t
    · subst hs
      rw [if_pos rfl, dGet_dSet_self, hn]
      rfl
    · rw [if_neg hs, dGet_dSet_ne _ _ _ _ hs]
  · rw [if_neg hn]
    by_cases hs : s = t
    · subst hs
      rw [if_pos rfl]
      cases h : dGet a s with
      | none => rw [h] at hn; simp at hn
      | some v => rfl
    · rw [if_neg hs]

theorem dGet_backfill_foldl (L : List Int) (fc : List (String × Nat)) (s : String) :
    dGet (L.foldl (fun acc i =>
        if (dGet acc (toString i)).isNone then dSet acc (toString i) 0 else acc) fc) s =
      if s ∈ L.map (fun i => toString i) then some ((dGet fc s).getD 0) else dGet fc s := by
  induction L generalizing fc with
  | nil => simp
  | cons i rest ih =>
    rw [List.foldl_cons, ih, List.map_cons]
    simp only [dGet_backfillStep]
    by_cases hs : s = toString i
    · subst hs
      by_cases hm : toString i ∈ rest.map (fun j => toString j) <;> simp [hm]
    · by_cases hm : s ∈ rest.map (fun j => toString j) <;> simp [hs, hm]

theorem dGet_map_skeyPair (l : List (String × Nat)) (s : String) :
    dGet (l.map (fun kv => (PKey.skey kv.1, kv.2))) (PKey.skey s) = dGet l s := by
  induction l with
  | nil => rfl
  | cons kv rest ih =>
    by_cases h : kv.1 = s
    · simp [dGet, h]
    · simp [dGet, h, ih]

theorem dGet_map_skeyPair_ikey (l : List (String × Nat)) (n : Int) :
    dGet (l.map (fun kv => (PKey.skey kv.1, kv.2))) (PKey.ikey n) = none := by
  induction l with
  | nil => rfl
  | cons kv rest ih => simp [dGet, ih]

/-- C6: if a parsed statistics document lacks any one of the five
required keys, `load_data` keeps the in-memory statistics unchanged
(no partial merge); whenever a document is accepted, the finger-count
mapping afterwards has an entry (at the string key) for every count
1-5, a count missing from the document being backfilled to 0. -/
theorem C6_load_statistics_defensive (cur : PlayerStats) (doc : StatsDoc) :
    ((doc.total_games = none ∨ doc.total_rounds = none ∨ doc.finger_counts = none ∨
        doc.choice_history = none ∨ doc.win_rate = none) →
      loadStatsFromDoc cur doc = cur) ∧
    (∀ (tg tr : Nat) (fc ch : List (String × Nat)) (wr : ℚ),
      doc = { total_games := some tg, total_rounds := some tr, finger_counts := some fc,
              choice_history := some ch, win_rate := some wr } →
      ∀ i : Int, 1 ≤ i → i ≤ 5 →
        dGet (loadStatsFromDoc cur doc).finger_counts (PKey.skey (toString i)) =
          some ((dGet fc (toString i)).getD 0)) := by
  constructor
  · intro h
    rcases doc with ⟨tg, tr, fc, ch, wr⟩
    cases tg <;> cases tr <;> cases fc <;> cases ch <;> cases wr <;>
      simp_all [loadStatsFromDoc]
  · intro tg tr fc ch wr hdoc i h1 h5
    subst hdoc
    rw [loadStatsFromDoc]
    have hmem : toString i ∈ ([1, 2, 3, 4, 5] : List Int).map (fun j => toString j) := by
      interval_cases i <;> decide
    rw [dGet_map_skeyPair, backfillFingers, dGet_backfill_foldl, if_pos hmem]

/-- Witness for C6: the zeroed default survives the corrupt document of
scenario C, and the accepted document gets its missing count 3
backfilled to zero. -/
theorem C6_witness :
    loadStatsFromDoc freshStats docMissingWinRate = freshStats ∧
    dGet (loadStatsFromDoc freshStats docAccepted).finger_counts
        (PKey.skey (toString (3 : Int))) = some 0 := by
  constructor
  · exact (C6_load_statistics_defensive freshStats docMissingWinRate).1
      (Or.inr (Or.inr (Or.inr (Or.inr rfl))))
  · have h := (C6_load_statistics_defensive freshStats docAccepted).2 3 3
      [("2", 3)] [("odds", 3)] 1 rfl 3 (by decide) (by decide)
    rw [h]
    rfl

/-! ## Save/load round-trip lemmas (C7) -/

theorem allSkey_dGet_ikey (l : List (PKey × Nat)) (h : l.all isSkeyPair = true) (n : Int) :
    dGet l (PKey.ikey n) = none := by
  induction l with
  | nil => rfl
  | cons kv rest ih =>
    rw [List.all_cons, Bool.and_eq_true] at h
    rcases kv with ⟨k, v⟩
    cases k with
    | ikey m => simp [isSkeyPair] at h
    | skey t =>
      simp only [dGet]
      rw [if_neg (by simp)]
      exact ih h.2

theorem allSkey_dGet_map_strf (l : List (PKey × Nat)) (h : l.all isSkeyPair = true)
    (s : String) :
    dGet (l.map (fun kv => (keyStr kv.1, kv.2))) s = dGet l (PKey.skey s) := by
  induction l with
  | nil => rfl
  | cons kv rest ih =>
    rw [List.all_cons, Bool.and_eq_true] at h
    rcases kv with ⟨k, v⟩
    cases k with
    | ikey m => simp [isSkeyPair] at h
    | skey t =>
      rw [List.map_cons]
      simp only [dGet]
      by_cases ht : t = s
      · simp [keyStr, ht]
      · rw [if_neg (by simp [keyStr, ht]), if_neg (by simp [ht])]
        exact ih h.2

theorem allSkeyNodup_map_strf_nodup (l : List (PKey × Nat)) (h : allSkeyNodup l = true) :
    ((l.map (fun kv => (keyStr kv.1, kv.2))).map Prod.fst).Nodup := by
  rw [allSkeyNodup, Bool.and_eq_true] at h
  obtain ⟨hall, hnd⟩ := h
  have hnd' : (l.map (fun kv => kv.1)).Nodup := of_decide_eq_true hnd
  have e : (l.map (fun kv => (keyStr kv.1, kv.2))).map Prod.fst =
      (l.map (fun kv => kv.1)).map keyStr := by
    simp only [List.map_map]
    rfl
  rw [e]
  refine List.Nodup.map_on ?_ hnd'
  intro x hx y hy hxy
  obtain ⟨kvx, hkvx, hex⟩ := List.mem_map.mp hx
  obtain ⟨kvy, hkvy, hey⟩ := List.mem_map.mp hy
  subst hex
  subst hey
  have hx1 := List.all_eq_true.mp hall kvx hkvx
  have hy1 := List.all_eq_true.mp hall kvy hkvy
  rcases kvx with ⟨kx, vx⟩
  rcases kvy with ⟨ky, vy⟩
  cases kx with
  | ikey m => simp [isSkeyPair] at hx1
  | skey a =>
    cases ky with
    | ikey m => simp [isSkeyPair] at hy1
    | skey b =>
      simp only [keyStr] at hxy
      simp [hxy]

theorem wellKeyed_dGet_ikey (fc : List (PKey × Nat)) (h : wellKeyed fc = true) (n : Int) :
    (dGet fc (PKey.ikey n)).getD 0 = 0 := by
  induction fc with
  | nil => rfl
  | cons kv rest ih =>
    rcases kv with ⟨k, v⟩
    cases k with
    | ikey m =>
      cases v with
      | zero =>
        have h' : wellKeyed rest = true := h
        simp only [dGet]
        by_cases hm : PKey.ikey m = PKey.ikey n
        · rw [if_pos hm]
          rfl
        · rw [if_neg hm]
          exact ih h'
      | succ w => exact absurd h (by simp [wellKeyed])
    | skey t =>
      have h' : allSkeyNodup ((PKey.skey t, v) :: rest) = true := h
      rw [allSkeyNodup, Bool.and_eq_true] at h'
      rw [allSkey_dGet_ikey _ h'.1 n]
      rfl

theorem wellKeyed_reverse_strf (fc : List (PKey × Nat)) (h : wellKeyed fc = true)
    (s : String) :
    (dGet ((fc.map (fun kv => (keyStr kv.1, kv.2))).reverse) s).getD 0 =
      (dGet fc (PKey.skey s)).getD 0 := by
  induction fc with
  | nil => rfl
  | cons kv rest ih =>
    rcases kv with ⟨k, v⟩
    cases k with
    | ikey m =>
      cases v with
      | zero =>
        have h' : wellKeyed rest = true := h
        rw [List.map_cons, List.reverse_cons]
        have hrhs : dGet ((PKey.ikey m, 0) :: rest) (PKey.skey s) =
            dGet rest (PKey.skey s) := by
          simp [dGet]
        rw [hrhs]
        cases hr : dGet ((rest.map (fun kv => (keyStr kv.1, kv.2))).reverse) s with
        | some w =>
          rw [dGet_append_some _ hr]
          have ht := ih h'
          rw [hr] at ht
          exact ht
        | none =>
          rw [dGet_append_none _ hr]
          have ht := ih h'
          rw [hr] at ht
          simp only [Option.getD_none] at ht
          rw [← ht]
          by_cases hks : keyStr (PKey.ikey m) = s <;> simp [dGet, hks]
      | succ w => exact absurd h (by simp [wellKeyed])
    | skey t =>
      have h' : allSkeyNodup ((PKey.skey t, v) :: rest) = true := h
      have hnd := allSkeyNodup_map_strf_nodup _ h'
      rw [allSkeyNodup, Bool.and_eq_true] at h'
      rw [dGet_reverse_of_nodup _ _ hnd, allSkey_dGet_map_strf _ h'.1 s]

theorem saveLoad_finger_counts (p : Predictor) :
    (saveLoad p).player_stats.finger_counts =
      (backfillFingers (jsonParseObj
        (p.player_stats.finger_counts.map (fun kv => (keyStr kv.1, kv.2))))).map
        (fun kv => (PKey.skey kv.1, kv.2)) := rfl

theorem saveLoad_fingerUsage (p : Predictor)
    (hwk : wellKeyed p.player_stats.finger_counts = true)
    (i : Int) (h1 : 1 ≤ i) (h5 : i ≤ 5) :
    fingerUsage (saveLoad p).player_stats.finger_counts i =
      fingerUsage p.player_stats.finger_counts i := by
  rw [fingerUsage, saveLoad_finger_counts, dGet_map_skeyPair_ikey, dGet_map_skeyPair]
  have hmem : toString i ∈ ([1, 2, 3, 4, 5] : List Int).map (fun j => toString j) := by
    interval_cases i <;> decide
  rw [backfillFingers, dGet_backfill_foldl, if_pos hmem, dGet_jsonParseObj]
  simp only [Option.getD_some, Option.getD_none]
  rw [wellKeyed_reverse_strf _ hwk, fingerUsage, wellKeyed_dGet_ikey _ hwk]

/-- C7: loading immediately after saving, with no intervening mutation,
preserves the history length, the aggregate statistics (totals, win
rate, per-finger-value usage counts, per-choice counts) and the model,
hence its prediction on every feature vector.  The hypotheses say that
the finger-count mapping has the shape every reachable state has (the
constructor's zero-valued integer keys followed by the string-keyed
counters) and that the choice keys are distinct. -/
theorem C7_save_load_roundtrip (p : Predictor)
    (hwk : wellKeyed p.player_stats.finger_counts = true)
    (hnd : (p.player_stats.choice_history.map Prod.fst).Nodup) :
    (saveLoad p).game_history.length = p.game_history.length ∧
    (saveLoad p).player_stats.total_games = p.player_stats.total_games ∧
    (saveLoad p).player_stats.total_rounds = p.player_stats.total_rounds ∧
    (saveLoad p).player_stats.win_rate = p.player_stats.win_rate ∧
    (∀ i : Int, 1 ≤ i → i ≤ 5 →
      fingerUsage (saveLoad p).player_stats.finger_counts i =
        fingerUsage p.player_stats.finger_counts i) ∧
    (∀ c : String, dGet (saveLoad p).player_stats.choice_history c =
        dGet p.player_stats.choice_history c) ∧
    (∀ x : List (String × ℚ),
      (saveLoad p).finger_model.predictOne x = p.finger_model.predictOne x) := by
  refine ⟨rfl, rfl, rfl, rfl, fun i h1 h5 => saveLoad_fingerUsage p hwk i h1 h5,
    fun c => ?_, fun x => rfl⟩
  show dGet (jsonParseObj p.player_stats.choice_history) c =
    dGet p.player_stats.choice_history c
  rw [dGet_jsonParseObj, dGet_reverse_of_nodup _ _ hnd]

/-- Witness for C7 at the state reached after one online round (its
finger-count mapping carries both the integer key 2 and the string key
`'2'`, which collide in the JSON text). -/
theorem C7_witness :
    (wellKeyed (updateModel idLearn idLearn (freshPredictor true)
        gdWin).player_stats.finger_counts = true) ∧
    (saveLoad (updateModel idLearn idLearn (freshPredictor true)
        gdWin)).player_stats.total_rounds =
      (updateModel idLearn idLearn (freshPredictor true) gdWin).player_stats.total_rounds ∧
    fingerUsage (saveLoad (updateModel idLearn idLearn (freshPredictor true)
        gdWin)).player_stats.finger_counts 2 =
      fingerUsage (updateModel idLearn idLearn (freshPredictor true)
        gdWin).player_stats.finger_counts 2 :=
  ⟨by decide,
    (C7_save_load_roundtrip (updateModel idLearn idLearn (freshPredictor true) gdWin)
      (by decide) (by decide)).2.2.1,
    (C7_save_load_roundtrip (updateModel idLearn idLearn (freshPredictor true) gdWin)
      (by decide) (by decide)).2.2.2.2.1 2 (by decide) (by decide)⟩

/-! ## Mixed-key lemmas (C10) -/

theorem dGet_mem {κ α : Type} [DecidableEq κ] {l : List (κ × α)} {k : κ} {v : α}
    (h : dGet l k = some v) : (k, v) ∈ l := by
  induction l with
  | nil => simp [dGet] at h
  | cons kv rest ih =>
    rcases kv with ⟨k1, v1⟩
    by_cases hk : k1 = k
    · subst hk
      simp [dGet] at h
      subst h
      exact List.mem_cons_self _ _
    · simp only [dGet, if_neg hk] at h
      exact List.mem_cons_of_mem _ (ih h)

theorem mem_dSet_of_ne {κ α : Type} [DecidableEq κ] {l : List (κ × α)} {k : κ} {w : α}
    {k' : κ} {v' : α} (hne : k' ≠ k) (h : (k', v') ∈ dSet l k w) : (k', v') ∈ l := by
  induction l with
  | nil =>
    simp only [dSet, List.mem_singleton, Prod.mk.injEq] at h
    exact absurd h.1 hne
  | cons kv rest ih =>
    by_cases hk : kv.1 = k
    · simp only [dSet, if_pos hk] at h
      rcases List.mem_cons.mp h with he | hm
      · rw [Prod.mk.injEq] at he
        exact absurd he.1 hne
      · exact List.mem_cons_of_mem _ hm
    · simp only [dSet, if_neg hk] at h
      rcases List.mem_cons.mp h with he | hm
      · rw [he]
        exact List.mem_cons_self _ _
      · exact List.mem_cons_of_mem _ (ih hm)

theorem updateStatistics_dGet_ikey (h : List GameData) (s : PlayerStats) (gd : GameData)
    (n : Int) :
    dGet (updateStatistics h s gd).finger_counts (PKey.ikey n) =
      dGet s.finger_counts (PKey.ikey n) := by
  rw [updateStatistics_finger_counts]
  split_ifs with hin
  · rw [dIncr, dGet_dSet_ne _ _ _ _ (by simp)]
  · rfl

theorem updateStatistics_mem_ikey (h : List GameData) (s : PlayerStats) (gd : GameData)
    {n : Int} {v : Nat}
    (hmem : (PKey.ikey n, v) ∈ (updateStatistics h s gd).finger_counts) :
    (PKey.ikey n, v) ∈ s.finger_counts := by
  rw [updateStatistics_finger_counts] at hmem
  split_ifs at hmem with hin
  · exact mem_dSet_of_ne (by simp) hmem
  · exact hmem

theorem runUpdates_dGet_ikey (lF lC : LinReg → GameData → LinReg) (gds : List GameData) :
    ∀ (p : Predictor) (n : Int),
      dGet (runUpdates lF lC p gds).player_stats.finger_counts (PKey.ikey n) =
        dGet p.player_stats.finger_counts (PKey.ikey n) := by
  induction gds with
  | nil => intro p n; rfl
  | cons gd rest ih =>
    intro p n
    rw [runUpdates_cons, ih, updateModel_player_stats, updateStatistics_dGet_ikey]

theorem runUpdates_mem_ikey (lF lC : LinReg → GameData → LinReg) (gds : List GameData) :
    ∀ (p : Predictor) {n : Int} {v : Nat},
      (PKey.ikey n, v) ∈ (runUpdates lF lC p gds).player_stats.finger_counts →
      (PKey.ikey n, v) ∈ p.player_stats.finger_counts := by
  induction gds with
  | nil => intro p n v hm; exact hm
  | cons gd rest ih =>
    intro p n v hm
    rw [runUpdates_cons] at hm
    have h1 := ih (updateModel lF lC p gd) hm
    rw [updateModel_player_stats] at h1
    exact updateStatistics_mem_ikey _ _ _ h1

theorem exists_skey_of_getD_pos (fc : List (PKey × Nat)) (t : String)
    (h : 1 ≤ (dGet fc (PKey.skey t)).getD 0) :
    ∃ s v, dGet fc (PKey.skey s) = some v ∧ 1 ≤ v := by
  cases hd : dGet fc (PKey.skey t) with
  | none => rw [hd] at h; simp at h
  | some v =>
    rw [hd] at h
    exact ⟨t, v, hd, by simpa using h⟩

theorem maxByVal_fold_spec {κ : Type} (l : List (κ × Nat)) :
    ∀ b : κ × Nat,
      ∃ c, l.foldl (fun acc kv =>
          match acc with
          | none => some kv
          | some best => if best.2 < kv.2 then some kv else some best) (some b) = some c ∧
        (c = b ∨ c ∈ l) ∧ b.2 ≤ c.2 ∧ ∀ kv ∈ l, kv.2 ≤ c.2 := by
  induction l with
  | nil =>
    intro b
    exact ⟨b, rfl, Or.inl rfl, le_refl _, by simp⟩
  | cons kv rest ih =>
    intro b
    rw [List.foldl_cons]
    by_cases hlt : b.2 < kv.2
    · have estep : (match some b with
          | none => some kv
          | some best => if best.2 < kv.2 then some kv else some best) = some kv := by
        simp [hlt]
      rw [estep]
      obtain ⟨c, hc, hmem, hle, hall⟩ := ih kv
      refine ⟨c, hc, ?_, by omega, ?_⟩
      · rcases hmem with rfl | hm
        · exact Or.inr (List.mem_cons_self _ _)
        · exact Or.inr (List.mem_cons_of_mem _ hm)
      · intro kv' hkv'
        rcases List.mem_cons.mp hkv' with rfl | hm
        · exact hle
        · exact hall kv' hm
    · have estep : (match some b with
          | none => some kv
          | some best => if best.2 < kv.2 then some kv else some best) = some b := by
        simp [hlt]
      rw [estep]
      obtain ⟨c, hc, hmem, hle, hall⟩ := ih b
      refine ⟨c, hc, ?_, hle, ?_⟩
      · rcases hmem with rfl | hm
        · exact Or.inl rfl
        · exact Or.inr (List.mem_cons_of_mem _ hm)
      · intro kv' hkv'
        rcases List.mem_cons.mp hkv' with rfl | hm
        · omega
        · exact hall kv' hm

theorem maxByVal_spec {κ : Type} (l : List (κ × Nat)) (h : l ≠ []) :
    ∃ kv, maxByVal l = some kv ∧ kv ∈ l ∧ ∀ kv' ∈ l, kv'.2 ≤ kv.2 := by
  obtain ⟨b, rest, rfl⟩ := List.exists_cons_of_ne_nil h
  rw [maxByVal, List.foldl_cons]
  obtain ⟨c, hc, hmem, hle, hall⟩ := maxByVal_fold_spec rest b
  refine ⟨c, hc, ?_, ?_⟩
  · rcases hmem with rfl | hm
    · exact List.mem_cons_self _ _
    · exact List.mem_cons_of_mem _ hm
  · intro kv' hkv'
    rcases List.mem_cons.mp hkv' with rfl | hm
    · exact hle
    · exact hall kv' hm

theorem simplePrediction_finger_eq (s : PlayerStats) :
    (simplePrediction s).finger_count =
      if 0 < (s.finger_counts.map (fun kv => kv.2)).sum then
        match maxByVal s.finger_counts with
        | some kv =>
          match kv.1 with
          | PKey.ikey n => FingerVal.intv n
          | PKey.skey t => FingerVal.strv t
        | none => FingerVal.intv 3
      else FingerVal.intv 3 := rfl

theorem simplePrediction_strv (s : PlayerStats)
    (hik : ∀ (n : Int) (v : Nat), (PKey.ikey n, v) ∈ s.finger_counts → v = 0)
    (hsk : ∃ t v, dGet s.finger_counts (PKey.skey t) = some v ∧ 1 ≤ v) :
    ∃ t, (simplePrediction s).finger_count = FingerVal.strv t := by
  obtain ⟨t, v, hd, hv⟩ := hsk
  have hmem : (PKey.skey t, v) ∈ s.finger_counts := dGet_mem hd
  have hvm : v ∈ s.finger_counts.map (fun kv => kv.2) :=
    List.mem_map.mpr ⟨(PKey.skey t, v), hmem, rfl⟩
  have hsum : 0 < (s.finger_counts.map (fun kv => kv.2)).sum := by
    have hle := List.single_le_sum (fun x _ => Nat.zero_le x) v hvm
    omega
  obtain ⟨kv, hkv_eq, hkv_mem, hkv_max⟩ :=
    maxByVal_spec s.finger_counts (List.ne_nil_of_mem hmem)
  have hge : v ≤ kv.2 := hkv_max (PKey.skey t, v) hmem
  rw [simplePrediction_finger_eq, if_pos hsum, hkv_eq]
  rcases kv with ⟨k, w⟩
  cases k with
  | ikey n =>
    have hw : w = 0 := hik n w hkv_mem
    exfalso
    simp only at hge
    omega
  | skey u => exact ⟨u, rfl⟩

/-- C10: from a fresh predictor, once at least one in-range round has
been recorded, the finger-count mapping simultaneously holds the
constructor's integer keys 1-5 (stuck at 0 forever) and the string
keys written by `_update_statistics`; some string key carries a
positive count, and `_simple_prediction` — maximizing over the mapping
— hands back a STRING key as the predicted finger count. -/
theorem C10_mixed_key_statistics (avail : Bool) (lF lC : LinReg → GameData → LinReg)
    (gds : List GameData) (h : ∃ gd ∈ gds, inRangeFingers gd = true) :
    (∀ i : Int, 1 ≤ i → i ≤ 5 →
      dGet (runUpdates lF lC (freshPredictor avail) gds).player_stats.finger_counts
        (PKey.ikey i) = some 0) ∧
    (∃ t v, dGet (runUpdates lF lC (freshPredictor avail) gds).player_stats.finger_counts
        (PKey.skey t) = some v ∧ 1 ≤ v) ∧
    (∃ t, (simplePrediction
        (runUpdates lF lC (freshPredictor avail) gds).player_stats).finger_count =
      FingerVal.strv t) := by
  have hik : ∀ i : Int, 1 ≤ i → i ≤ 5 →
      dGet (runUpdates lF lC (freshPredictor avail) gds).player_stats.finger_counts
        (PKey.ikey i) = some 0 := by
    intro i h1 h5
    rw [runUpdates_dGet_ikey]
    have e : dGet (freshPredictor avail).player_stats.finger_counts (PKey.ikey i) =
        dGet freshStats.finger_counts (PKey.ikey i) := rfl
    rw [e]
    interval_cases i <;> rfl
  have hcount : 1 ≤ (gds.filter (fun gd => inRangeFingers gd)).length := by
    obtain ⟨gd, hgd, hr⟩ := h
    have hmem : gd ∈ gds.filter (fun gd => inRangeFingers gd) :=
      List.mem_filter.mpr ⟨hgd, hr⟩
    have := List.length_pos.mpr (List.ne_nil_of_mem hmem)
    omega
  have hsum := (runUpdates_stats_counts lF lC gds (freshPredictor avail)).2
  have hfresh : fingerUsageSum (freshPredictor avail).player_stats.finger_counts = 0 := by
    have e0 : fingerUsageSum freshStats.finger_counts = 0 := by decide
    exact e0
  rw [hfresh] at hsum
  have hB : ∃ t v,
      dGet (runUpdates lF lC (freshPredictor avail) gds).player_stats.finger_counts
        (PKey.skey t) = some v ∧ 1 ≤ v := by
    have e1 := hik 1 (by norm_num) (by norm_num)
    have e2 := hik 2 (by norm_num) (by norm_num)
    have e3 := hik 3 (by norm_num) (by norm_num)
    have e4 := hik 4 (by norm_num) (by norm_num)
    have e5 := hik 5 (by norm_num) (by norm_num)
    by_cases hb1 : 1 ≤ (dGet (runUpdates lF lC (freshPredictor avail)
        gds).player_stats.finger_counts (PKey.skey (toString (1 : Int)))).getD 0
    · exact exists_skey_of_getD_pos _ _ hb1
    by_cases hb2 : 1 ≤ (dGet (runUpdates lF lC (freshPredictor avail)
        gds).player_stats.finger_counts (PKey.skey (toString (2 : Int)))).getD 0
    · exact exists_skey_of_getD_pos _ _ hb2
    by_cases hb3 : 1 ≤ (dGet (runUpdates lF lC (freshPredictor avail)
        gds).player_stats.finger_counts (PKey.skey (toString (3 : Int)))).getD 0
    · exact exists_skey_of_getD_pos _ _ hb3
    by_cases hb4 : 1 ≤ (dGet (runUpdates lF lC (freshPredictor avail)
        gds).player_stats.finger_counts (PKey.skey (toString (4 : Int)))).getD 0
    · exact exists_skey_of_getD_pos _ _ hb4
    by_cases hb5 : 1 ≤ (dGet (runUpdates lF lC (freshPredictor avail)
        gds).player_stats.finger_counts (PKey.skey (toString (5 : Int)))).getD 0
    · exact exists_skey_of_getD_pos _ _ hb5
    exfalso
    simp only [fingerUsageSum, fingerUsage] at hsum
    rw [e1, e2, e3, e4, e5] at hsum
    simp only [Option.getD_some] at hsum
    omega
  have hmemik : ∀ (n : Int) (v : Nat),
      (PKey.ikey n, v) ∈
        (runUpdates lF lC (freshPredictor avail) gds).player_stats.finger_counts →
      v = 0 := by
    intro n v hm
    have h1 := runUpdates_mem_ikey lF lC gds (freshPredictor avail) hm
    have h2 : (PKey.ikey n, v) ∈ freshStats.finger_counts := h1
    simp [freshStats] at h2
    rcases h2 with ⟨_, hv⟩ | ⟨_, hv⟩ | ⟨_, hv⟩ | ⟨_, hv⟩ | ⟨_, hv⟩ <;> exact hv
  exact ⟨hik, hB, simplePrediction_strv _ hmemik hB⟩

/-- Witness for C10 after a single in-range round: the fallback
prediction is a string value. -/
theorem C10_witness :
    (∃ gd ∈ [gdWin], inRangeFingers gd = true) ∧
    (∃ t, (simplePrediction (runUpdates idLearn idLearn (freshPredictor false)
        [gdWin]).player_stats).finger_count = FingerVal.strv t) :=
  ⟨by decide,
    (C10_mixed_key_statistics false idLearn idLearn [gdWin] (by decide)).2.2⟩

end OddsEvens
